import Mathlib

/-!
Verification of the message-framing layer of `umsgpack_conn.py`.

The module frames opaque byte payloads on a socket as
`uint32 little-endian length || payload`, and `ConnectionHandler.run`
incrementally re-assembles payloads from arbitrarily fragmented reads.

Bytes are modelled as natural numbers; a byte string is a `List Nat`.
The blocking `connection.recv` calls of the receive loop are modelled by a
finite list of events: either a chunk of bytes arrives, or `recv` raises
(transport error / socket closed from under the call).  When the event list
runs out while the loop still wants input, the run is reported as `blocked`
(the real loop would sit in `recv` forever at that point).
-/

namespace UmsgpackConn

/-- `MAX_INT32 = 2147483647` from the source (the comment there calls it
`(2**32)-1` but the value is `2^31 - 1`). -/
def MAX_INT32 : Nat := 2147483647

/-- Little-endian decoding of a 4-byte string, as `struct.unpack("<I", b)[0]`. -/
def le32dec (bs : List Nat) : Nat :=
  bs.getD 0 0 + 256 * bs.getD 1 0 + 65536 * bs.getD 2 0 + 16777216 * bs.getD 3 0

/-- Little-endian encoding of a 32-bit value, as `struct.pack("<I", n)`. -/
def le32enc (n : Nat) : List Nat :=
  [n % 256, n / 256 % 256, n / 65536 % 256, n / 16777216 % 256]

/-- The value `struct.unpack("<I", ...)` hands to the
`assert number_of_bytes >= 0` check: an unsigned decode, read at type `Int`
because the assertion compares it with `0`. -/
def unpack_u32 (bs : List Nat) : Int := Int.ofNat (le32dec bs)

/-- `UMsgPacker.pack_obj`, applied to the serialized message bytes
(`umsgpack.packb` is the external codec and is out of scope): assert
`len(msg) < MAX_INT32`, then prepend `struct.pack("<I", len(msg))`.
A failed assert is the `.error` case and produces no frame bytes. -/
def pack_obj (msg : List Nat) : Except String (List Nat) :=
  if msg.length < MAX_INT32 then
    .ok (le32enc msg.length ++ msg)
  else
    .error "Message from object received is too big"

/-- One frame on the wire: 4-byte little-endian length, then the payload. -/
def encodeFrame (p : List Nat) : List Nat := le32enc p.length ++ p

/-- The mutable loop state of `ConnectionHandler.run`: the byte buffer `data`
and `number_of_bytes` (called `n` here; `n = 0` means no length prefix is
currently pending, which is also how the code represents a parsed
zero-length prefix). -/
structure RState where
  data : List Nat
  n : Nat
deriving DecidableEq

/-- The condition of the inner `while` loop:
`not data or number_of_bytes == 0 or len(data) < number_of_bytes`. -/
def needsRecv (s : RState) : Prop :=
  s.data = [] ∨ s.n = 0 ∨ s.data.length < s.n

instance (s : RState) : Decidable (needsRecv s) := by
  unfold needsRecv; infer_instance

/-- The prefix-parsing step that appears twice in `run`:
`if number_of_bytes == 0 and len(data) >= 4:` take the first 4 bytes,
`struct.unpack("<I", ...)`, `assert number_of_bytes >= 0` (the `.error`
case models a failing assert, i.e. the
`wrong message received. Shutting down connection!` branch), and drop the
4 prefix bytes from the buffer. -/
def tryParse (s : RState) : Except Unit RState :=
  if s.n = 0 ∧ 4 ≤ s.data.length then
    let v := unpack_u32 (s.data.take 4)
    if v < 0 then .error ()
    else .ok ⟨s.data.drop 4, v.toNat⟩
  else .ok s

/-- Companion to `tryParse` with the (provably unreachable) assert branch
removed; `tryParse_eq` shows the two agree. -/
def tryParseP (s : RState) : RState :=
  if s.n = 0 ∧ 4 ≤ s.data.length then
    ⟨s.data.drop 4, le32dec (s.data.take 4)⟩
  else s

/-- How a pass through the delivery part of the loop ends: back at a blocking
`recv` in state `s`, or an exception (failed prefix assert, or the
application handler raised out of `_handle_msg`). -/
inductive DrainStop
  | more (s : RState)
  | protoErr
  | handlerErr
deriving DecidableEq

/-- Delivery loop of `run` between two `recv` calls: while the inner loop
condition is false, emit `msg = data[:number_of_bytes]`, drop it from the
buffer, reset `number_of_bytes`, call `_handle_msg(msg)` (which raises when
`hf msg` is true), and re-run the prefix parse at the top of the outer loop.
Each emission consumes at least one buffered byte, so `fuel` bounds the
number of iterations; `drainH` supplies `data.length + 1`, which
`drainGo_spec` below shows is never exhausted. -/
def drainGo (hf : List Nat → Bool) : Nat → RState → List (List Nat) × DrainStop
  | 0, s => ([], .more s)
  | fuel + 1, s =>
    if needsRecv s then ([], .more s)
    else
      let msg := s.data.take s.n
      if hf msg then ([msg], .handlerErr)
      else
        match tryParse ⟨s.data.drop s.n, 0⟩ with
        | .error _ => ([msg], .protoErr)
        | .ok s' =>
          let r := drainGo hf fuel s'
          (msg :: r.1, r.2)

/-- Delivery loop with enough fuel for its buffer. -/
def drainH (hf : List Nat → Bool) (s : RState) : List (List Nat) × DrainStop :=
  drainGo hf (s.data.length + 1) s

/-- What `run` does with the bytes returned by one `recv`:
`data += rec`, the in-loop prefix parse, then the delivery loop. -/
def onRecvH (hf : List Nat → Bool) (s : RState) (c : List Nat) :
    List (List Nat) × DrainStop :=
  match tryParse ⟨s.data ++ c, s.n⟩ with
  | .error _ => ([], .protoErr)
  | .ok t => drainH hf t

/-- One blocking `recv`: either it returns a chunk of bytes — a graceful
end-of-stream is `recv` returning zero bytes, i.e. `chunk []` — or the call
raises (transport error / socket torn down under the call — the
`except: return` branch). -/
inductive RecvEvent
  | chunk (c : List Nat)
  | error
deriving DecidableEq

/-- How a modelled run ends. `blocked`: the loop is sitting in `recv` with no
further modelled events (it has not terminated). The other three are the
terminating outcomes of `ConnectionHandler.run`. -/
inductive Outcome
  | blocked
  | disconnected
  | protocolError
  | handlerError
deriving DecidableEq

/-- A handler that never raises (`_handle_decoded` of the base class). -/
def noFail : List Nat → Bool := fun _ => false

/-- `ConnectionHandler.run` from a blocked-at-`recv` state, driven by a list
of `recv` events.  The initial state is `⟨[], 0⟩` (`data = ''`,
`number_of_bytes = 0`; the first outer-loop pass falls straight through to
`recv`).  Returns the arguments of the `_handle_msg` calls, in order, and
the outcome. -/
def runH (hf : List Nat → Bool) : RState → List RecvEvent → List (List Nat) × Outcome
  | _, [] => ([], .blocked)
  | _, .error :: _ => ([], .disconnected)
  | s, .chunk c :: rest =>
    match onRecvH hf s c with
    | (ms, .protoErr) => (ms, .protocolError)
    | (ms, .handlerErr) => (ms, .handlerError)
    | (ms, .more s') =>
      let r := runH hf s' rest
      (ms ++ r.1, r.2)

/-- `connection.close()` on a socket: raises if the handle is already dead
(conservative model; the code defends against this with `try ... except`). -/
def sockClose (closed : Bool) : Except Unit Bool :=
  if closed then .error () else .ok true

/-- The `finally` block of `run`: `try: self.connection.close() except: pass`.
Whatever `close` does, no exception escapes and the socket ends closed. -/
def finallyClose (closed : Bool) : Bool :=
  match sockClose closed with
  | .ok c => c
  | .error _ => true

/-- Result of running the worker: handler invocations, outcome, final socket
state, and how many times the worker invoked `close`. -/
structure RunResult where
  msgs : List (List Nat)
  outcome : Outcome
  closed : Bool
  closeCalls : Nat
deriving DecidableEq

/-- `ConnectionHandler.run` including its `try/finally`: the `finally` block
executes exactly when the `try` body exits, i.e. on every outcome other than
`blocked` (while the loop is still blocked in `recv` the socket is
untouched). -/
def runWorker (hf : List Nat → Bool) (s : RState) (evs : List RecvEvent)
    (closed0 : Bool) : RunResult :=
  let r := runH hf s evs
  if r.2 = .blocked then ⟨r.1, r.2, closed0, 0⟩
  else ⟨r.1, r.2, finallyClose closed0, 1⟩

/-- The `_sock` attribute of `Server`: initially the attribute does not exist
(`absent`), `_serve_forever` sets it to a bound socket (`bound port`), and
`shutdown` overwrites it with `None` (`noneV`). -/
inductive SockAttr
  | absent
  | noneV
  | bound (port : Nat)
deriving DecidableEq

/-- The `Server` state touched by `shutdown` / `is_alive` / the accept loop.
`closeCalls` counts listening-socket `close()` calls, `spawned` counts
handler threads successfully started, `handlerFailures` counts handler
construction/start exceptions swallowed by the accept loop. -/
structure ServerState where
  block : Option Bool
  sockAttr : SockAttr
  shutdownEvent : Bool
  closeCalls : Nat
  spawned : Nat
  handlerFailures : Nat
deriving DecidableEq

/-- `getattr(self, '_sock', None)`: a missing attribute and a `None` value
are indistinguishable here. -/
def getattrSock (st : ServerState) : Option Nat :=
  match st.sockAttr with
  | .absent => none
  | .noneV => none
  | .bound p => some p

/-- `hasattr(self, '_sock')`: distinguishes only attribute existence. -/
def hasattrSock (a : SockAttr) : Bool :=
  match a with
  | .absent => false
  | _ => true

/-- `Server.shutdown`: set the shutdown event; if `getattr(self,'_sock',None)`
is not `None`, clear the attribute to `None` and close the socket (the
`close` is wrapped in `try/except`, so it never raises out). -/
def server_shutdown (st : ServerState) : ServerState :=
  let st1 := { st with shutdownEvent := true }
  match getattrSock st1 with
  | none => st1
  | some _ => { st1 with sockAttr := .noneV, closeCalls := st1.closeCalls + 1 }

/-- `Server.is_alive`: `False` before `serve_forever` ran, else whether the
`_sock` handle is present and not `None`. -/
def is_alive (st : ServerState) : Bool :=
  match st.block with
  | none => false
  | some _ => (getattrSock st).isSome

/-- The guard under which `_serve_forever` keeps iterating:
`not self._shutdown_event.is_set()` and `self._sock is not None`. -/
def acceptLoopGuard (st : ServerState) : Bool :=
  !st.shutdownEvent && (getattrSock st).isSome

/-- One pass of the accept loop, as seen by `_serve_forever`:
a connection is accepted (`conn ok`, where `ok` is false when constructing
or starting the connection handler raises), `select`/`accept` itself raises
(`acceptError`), or another thread calls `shutdown` before this pass
(`shutdownReq`). -/
inductive AcceptEvent
  | conn (handlerOk : Bool)
  | acceptError
  | shutdownReq
deriving DecidableEq

/-- How the modelled accept loop left off: still blocked in `select` waiting
for more events (`running`), exited through its loop guard (`cleanExit`), or
an exception escaped the loop body (`errorExit`).  In the last two cases the
`finally` block has already run `self.shutdown()`. -/
inductive ServeOutcome
  | running
  | cleanExit
  | errorExit
deriving DecidableEq

/-- The accept loop of `Server._serve_forever` (after the bind): check the
loop guard; on a `shutdownReq` apply `shutdown` and go round again; on an
accepted connection run `connection_handler_class(...)` / `.start()` inside
`try/except` (so a failure there is swallowed and counted); an exception
from `select`/`accept` escapes the loop.  On every exit path the `finally`
block calls `self.shutdown()`. -/
def serveLoop (st : ServerState) : List AcceptEvent → ServerState × ServeOutcome
  | [] => (st, .running)
  | ev :: rest =>
    if st.shutdownEvent ∨ getattrSock st = none then (server_shutdown st, .cleanExit)
    else
      match ev with
      | .shutdownReq => serveLoop (server_shutdown st) rest
      | .acceptError => (server_shutdown st, .errorExit)
      | .conn ok =>
        if ok then serveLoop { st with spawned := st.spawned + 1 } rest
        else serveLoop { st with handlerFailures := st.handlerFailures + 1 } rest

/-- The polling loop of `wait_for_condition`, on a discrete clock whose tick
is one `time.sleep(.01)`: at tick `k`, return `k` if the condition holds,
otherwise give up once the elapsed time exceeds `timeout`.  The first
argument is structural fuel; `wait_loop` passes `timeout + 2`, enough for
the loop to reach its timeout exit. -/
def waitGo (cond : Nat → Bool) (timeout : Nat) : Nat → Nat → Nat
  | 0, k => k
  | r + 1, k =>
    if cond k then k
    else if timeout < k then k
    else waitGo cond timeout r (k + 1)

/-- Tick at which `wait_for_condition(condition, timeout)` stops polling. -/
def wait_loop (cond : Nat → Bool) (timeout : Nat) : Nat :=
  waitGo cond timeout (timeout + 2) 0

/-- `wait_for_condition`: whether the condition held when polling stopped. -/
def wait_for_condition (cond : Nat → Bool) (timeout : Nat) : Bool :=
  cond (wait_loop cond timeout)

/-- `Server.get_port`: poll `hasattr(self, '_sock')` for up to 5 seconds
(500 ticks), then evaluate `self._sock.getsockname()[1]` — which raises
`AttributeError` if the attribute never appeared (or holds `None`).
`sockAt k` is the value of the `_sock` attribute at tick `k`. -/
def get_port (sockAt : Nat → SockAttr) : Except String Nat :=
  let t := wait_loop (fun k => hasattrSock (sockAt k)) 500
  match sockAt t with
  | .bound p => .ok p
  | _ => .error "AttributeError: _sock"

/-- Invariant of the loop state at a blocking `recv`: the pending length fits
in 32 bits, and the buffer is short of what the current mode needs (fewer
than 4 bytes when awaiting a prefix, fewer than `n` bytes when awaiting a
payload). -/
def stateWF (s : RState) : Prop :=
  s.n < 4294967296 ∧ (s.n = 0 → s.data.length < 4) ∧ (s.n ≠ 0 → s.data.length < s.n)

/-- The stream bytes the state has consumed beyond what it has emitted:
the buffered bytes, preceded by the already-stripped length prefix when one
is pending. -/
def owed (s : RState) : List Nat := if s.n = 0 then s.data else le32enc s.n ++ s.data

/-- Payload sequences the round-trip statements quantify over: non-empty
payloads whose length fits the 32-bit prefix. -/
def goodStream (qs : List (List Nat)) : Prop :=
  ∀ q ∈ qs, q ≠ [] ∧ q.length < 4294967296

section Lemmas

/-- A 32-bit little-endian prefix is 4 bytes. -/
theorem le32enc_length (n : Nat) : (le32enc n).length = 4 := rfl

/-- Packing then unpacking a 32-bit length is the identity. -/
theorem le32_round (n : Nat) (h : n < 4294967296) : le32dec (le32enc n) = n := by
  simp [le32dec, le32enc, List.getD]
  omega

/-- The `assert number_of_bytes >= 0` after `struct.unpack("<I", ...)` never
fires: `tryParse` always succeeds and agrees with `tryParseP`. -/
theorem tryParse_eq (s : RState) : tryParse s = .ok (tryParseP s) := by
  unfold tryParse tryParseP unpack_u32
  split
  · have h0 : ¬ Int.ofNat (le32dec (s.data.take 4)) < 0 :=
      not_lt.mpr (Int.ofNat_nonneg _)
    simp [h0]
  · rfl

/-- The delivery loop never reports a failed prefix assert. -/
theorem drainGo_no_proto (hf : List Nat → Bool) (fuel : Nat) :
    ∀ s : RState, (drainGo hf fuel s).2 ≠ DrainStop.protoErr := by
  induction fuel with
  | zero => intro s; simp [drainGo]
  | succ f ih =>
    intro s
    rw [drainGo]
    simp only [tryParse_eq]
    split
    · simp
    · split
      · simp
      · simpa using ih (tryParseP ⟨s.data.drop s.n, 0⟩)

/-- With a handler that never raises, the delivery loop always returns to a
blocking `recv`. -/
theorem drainGo_noFail_more (fuel : Nat) :
    ∀ s : RState, ∃ ms t, drainGo noFail fuel s = (ms, DrainStop.more t) := by
  induction fuel with
  | zero => intro s; exact ⟨[], s, rfl⟩
  | succ f ih =>
    intro s
    rw [drainGo]
    split
    · exact ⟨[], s, rfl⟩
    · rw [if_neg (by simp [noFail]), tryParse_eq]
      obtain ⟨ms, t, h⟩ := ih (tryParseP ⟨s.data.drop s.n, 0⟩)
      exact ⟨s.data.take s.n :: ms, t, by simp [h]⟩

/-- A chunk arriving at a `recv` never produces a protocol error, and with a
non-raising handler always returns to a blocking `recv`. -/
theorem onRecvH_noFail_more (s : RState) (c : List Nat) :
    ∃ ms t, onRecvH noFail s c = (ms, DrainStop.more t) := by
  unfold onRecvH
  rw [tryParse_eq]
  exact drainGo_noFail_more _ _

/-- `onRecvH` never reports a failed prefix assert. -/
theorem onRecvH_no_proto (hf : List Nat → Bool) (s : RState) (c : List Nat) :
    (onRecvH hf s c).2 ≠ DrainStop.protoErr := by
  unfold onRecvH
  rw [tryParse_eq]
  exact drainGo_no_proto _ _ _

/-- The receive loop never terminates with a protocol error, whatever the
handler does. -/
theorem runH_no_proto (hf : List Nat → Bool) :
    ∀ (evs : List RecvEvent) (s : RState),
      (runH hf s evs).2 ≠ Outcome.protocolError := by
  intro evs
  induction evs with
  | nil => intro s; simp [runH]
  | cons ev rest ih =>
    intro s
    match ev with
    | .error => simp [runH]
    | .chunk c =>
      rw [runH]
      rcases hr : onRecvH hf s c with ⟨ms, stop⟩
      match stop with
      | .protoErr => exact absurd (by rw [hr]) (onRecvH_no_proto hf s c)
      | .handlerErr => simp
      | .more s' => simpa using ih s'

/-- `owed` when no prefix is pending. -/
theorem owed_zero (s : RState) (h : s.n = 0) : owed s = s.data := by
  simp [owed, h]

/-- `owed` when a prefix has been consumed. -/
theorem owed_pos (s : RState) (h : s.n ≠ 0) : owed s = le32enc s.n ++ s.data := by
  simp [owed, h]

/-- Invariant preservation for the delivery loop: if the bytes the state owes,
followed by the bytes still to come, form a well-aligned stream of non-empty
frames, the loop emits exactly the frames whose bytes it holds, in order,
and returns to a blocking `recv` owing the rest of the stream. -/
theorem drainGo_spec (fuel : Nat) :
    ∀ (s : RState) (qs : List (List Nat)) (future : List Nat),
      s.data.length < fuel →
      s.n < 4294967296 →
      (s.n = 0 → s.data.length < 4) →
      goodStream qs →
      owed s ++ future = (qs.map encodeFrame).flatten →
      ∃ out qs' t, drainGo noFail fuel s = (out, DrainStop.more t) ∧
        qs = out ++ qs' ∧ goodStream qs' ∧ stateWF t ∧
        owed t ++ future = (qs'.map encodeFrame).flatten := by
  induction fuel with
  | zero => intro s qs future hfuel; omega
  | succ f ih =>
    intro s qs future hfuel hn32 hn0 hgood heq
    rw [drainGo]
    by_cases hnr : needsRecv s
    · rw [if_pos hnr]
      refine ⟨[], qs, s, rfl, rfl, hgood, ⟨hn32, hn0, ?_⟩, heq⟩
      intro hne
      rcases hnr with h | h | h
      · simpa [h] using Nat.pos_of_ne_zero hne
      · exact absurd h hne
      · exact h
    · have hne : s.data ≠ [] := fun h => hnr (Or.inl h)
      have hn : s.n ≠ 0 := fun h => hnr (Or.inr (Or.inl h))
      have hlen : s.n ≤ s.data.length := le_of_not_lt fun h => hnr (Or.inr (Or.inr h))
      have hdpos : 1 ≤ s.data.length := List.length_pos.mpr hne
      rw [if_neg hnr, if_neg (by simp [noFail])]
      simp only [tryParse_eq]
      cases qs with
      | nil =>
        exfalso
        simp [owed_pos s hn, le32enc] at heq
      | cons q0 qrest =>
        obtain ⟨hq0ne, hq0lt⟩ := hgood q0 (List.mem_cons_self _ _)
        rw [owed_pos s hn, List.map_cons, List.flatten_cons, encodeFrame] at heq
        have heq2 : le32enc s.n ++ (s.data ++ future)
            = le32enc q0.length ++ (q0 ++ (qrest.map encodeFrame).flatten) := by
          simpa [List.append_assoc] using heq
        obtain ⟨hpre, hdf⟩ := List.append_inj heq2 (by rw [le32enc_length, le32enc_length])
        have hnq0 : s.n = q0.length := by
          have h := congrArg le32dec hpre
          rwa [le32_round _ hn32, le32_round _ hq0lt] at h
        have hsp : s.data.take s.n ++ (s.data.drop s.n ++ future)
            = q0 ++ (qrest.map encodeFrame).flatten := by
          rw [← List.append_assoc, List.take_append_drop]; exact hdf
        obtain ⟨htk, hdr⟩ := List.append_inj hsp
          (by rw [List.length_take, Nat.min_eq_left hlen, hnq0])
        have hgrest : goodStream qrest := fun q hq => hgood q (List.mem_cons_of_mem _ hq)
        by_cases hp4 : 4 ≤ (s.data.drop s.n).length
        · cases qrest with
          | nil =>
            exfalso
            simp [List.append_eq_nil] at hdr
            rw [List.length_drop] at hp4
            omega
          | cons q1 qrest2 =>
            obtain ⟨hq1ne, hq1lt⟩ := hgrest q1 (List.mem_cons_self _ _)
            rw [List.map_cons, List.flatten_cons, encodeFrame] at hdr
            have hdr2 : (s.data.drop s.n).take 4 ++ ((s.data.drop s.n).drop 4 ++ future)
                = le32enc q1.length ++ (q1 ++ (qrest2.map encodeFrame).flatten) := by
              rw [← List.append_assoc, List.take_append_drop]
              simpa [List.append_assoc] using hdr
            obtain ⟨hpre1, hdf1⟩ := List.append_inj hdr2
              (by rw [List.length_take, Nat.min_eq_left hp4, le32enc_length])
            have hq1pos : q1.length ≠ 0 := fun h => hq1ne (List.eq_nil_of_length_eq_zero h)
            have ht0 : tryParseP ⟨s.data.drop s.n, 0⟩
                = ⟨(s.data.drop s.n).drop 4, q1.length⟩ := by
              rw [tryParseP, if_pos ⟨rfl, hp4⟩]
              simp only [hpre1, le32_round _ hq1lt]
            obtain ⟨out', qs', t, hrun, hqs, hgood', hWF, heq'⟩ :=
              ih ⟨(s.data.drop s.n).drop 4, q1.length⟩ (q1 :: qrest2) future
                (by simp only [List.length_drop]; omega)
                hq1lt
                (fun h => absurd h hq1pos)
                hgrest
                (by rw [owed_pos _ hq1pos]
                    simp only [List.append_assoc, hdf1]
                    rw [List.map_cons, List.flatten_cons, encodeFrame, List.append_assoc])
            refine ⟨q0 :: out', qs', t, ?_, ?_, hgood', hWF, heq'⟩
            · simp only [ht0, hrun, htk]
            · rw [hqs]; rfl
        · have ht0 : tryParseP ⟨s.data.drop s.n, 0⟩ = ⟨s.data.drop s.n, 0⟩ := by
            rw [tryParseP, if_neg]
            intro hc; exact hp4 hc.2
          obtain ⟨out', qs', t, hrun, hqs, hgood', hWF, heq'⟩ :=
            ih ⟨s.data.drop s.n, 0⟩ qrest future
              (by simp only [List.length_drop]; omega)
              (by norm_num : (0 : Nat) < 4294967296)
              (fun _ => by simpa [List.length_drop] using lt_of_not_le hp4)
              hgrest
              (by rw [owed_zero _ rfl]; exact hdr)
          refine ⟨q0 :: out', qs', t, ?_, ?_, hgood', hWF, heq'⟩
          · simp only [ht0, hrun, htk]
          · rw [hqs]; rfl

/-- One `recv` worth of bytes, starting from a well-formed blocked state:
the in-loop parse plus the delivery loop emit a prefix of the outstanding
frames and return to a well-formed blocked state owing the rest. -/
theorem onRecvH_spec (s : RState) (qs : List (List Nat)) (c future : List Nat)
    (hWF : stateWF s) (hgood : goodStream qs)
    (heq : owed s ++ (c ++ future) = (qs.map encodeFrame).flatten) :
    ∃ out qs' t, onRecvH noFail s c = (out, DrainStop.more t) ∧
      qs = out ++ qs' ∧ goodStream qs' ∧ stateWF t ∧
      owed t ++ future = (qs'.map encodeFrame).flatten := by
  obtain ⟨hn32, hz4, hpl⟩ := hWF
  unfold onRecvH
  rw [tryParse_eq]
  by_cases hn : s.n = 0
  · by_cases h4 : 4 ≤ (s.data ++ c).length
    · cases qs with
      | nil =>
        exfalso
        rw [owed_zero s hn] at heq
        have h3 : s.data = [] ∧ c = [] ∧ future = [] := by simpa using heq
        rw [h3.1, h3.2.1] at h4
        simp at h4
      | cons q0 qrest =>
        obtain ⟨hq0ne, hq0lt⟩ := hgood q0 (List.mem_cons_self _ _)
        rw [owed_zero s hn, List.map_cons, List.flatten_cons, encodeFrame] at heq
        have hX : (s.data ++ c) ++ future
            = le32enc q0.length ++ (q0 ++ (qrest.map encodeFrame).flatten) := by
          simpa [List.append_assoc] using heq
        have hsp : (s.data ++ c).take 4 ++ ((s.data ++ c).drop 4 ++ future)
            = le32enc q0.length ++ (q0 ++ (qrest.map encodeFrame).flatten) := by
          rw [← List.append_assoc, List.take_append_drop]; exact hX
        obtain ⟨hpre, hrest⟩ := List.append_inj hsp
          (by rw [List.length_take, Nat.min_eq_left h4, le32enc_length])
        have hq0pos : q0.length ≠ 0 := fun h => hq0ne (List.eq_nil_of_length_eq_zero h)
        have ht : tryParseP ⟨s.data ++ c, s.n⟩ = ⟨(s.data ++ c).drop 4, q0.length⟩ := by
          rw [tryParseP, if_pos ⟨hn, h4⟩]
          simp only [hpre, le32_round _ hq0lt]
        rw [ht]
        unfold drainH
        exact drainGo_spec _ ⟨(s.data ++ c).drop 4, q0.length⟩ (q0 :: qrest) future
          (Nat.lt_succ_self _) hq0lt (fun h => absurd h hq0pos) hgood
          (by rw [owed_pos _ hq0pos]
              simp only [List.append_assoc, hrest]
              rw [List.map_cons, List.flatten_cons, encodeFrame, List.append_assoc])
    · have ht : tryParseP ⟨s.data ++ c, s.n⟩ = ⟨s.data ++ c, s.n⟩ := by
        rw [tryParseP, if_neg]
        intro hc; exact h4 hc.2
      rw [ht]
      unfold drainH
      refine drainGo_spec _ ⟨s.data ++ c, s.n⟩ qs future
        (Nat.lt_succ_self _) hn32 (fun _ => lt_of_not_le h4) hgood ?_
      simp only [owed]
      rw [if_pos hn, List.append_assoc]
      rw [owed_zero s hn] at heq
      exact heq
  · have ht : tryParseP ⟨s.data ++ c, s.n⟩ = ⟨s.data ++ c, s.n⟩ := by
      rw [tryParseP, if_neg]
      intro hc; exact hn hc.1
    rw [ht]
    unfold drainH
    refine drainGo_spec _ ⟨s.data ++ c, s.n⟩ qs future
      (Nat.lt_succ_self _) hn32 (fun h => absurd h hn) hgood ?_
    simp only [owed]
    rw [if_neg hn]
    rw [owed_pos s hn] at heq
    simpa [List.append_assoc] using heq

/-- Chunk-decomposition correctness of the receive loop: starting well-formed
and owing nothing beyond its buffer, feeding any chunk sequence whose
concatenation (together with the owed bytes) is a stream of non-empty frames
delivers exactly those frames and ends blocked at `recv`. -/
theorem runH_spec :
    ∀ (cs : List (List Nat)) (s : RState) (qs : List (List Nat)),
      stateWF s → goodStream qs →
      owed s ++ cs.flatten = (qs.map encodeFrame).flatten →
      runH noFail s (cs.map RecvEvent.chunk) = (qs, Outcome.blocked) := by
  intro cs
  induction cs with
  | nil =>
    intro s qs hWF hgood heq
    obtain ⟨hn32, hz, hp⟩ := hWF
    have hqs : qs = [] := by
      cases qs with
      | nil => rfl
      | cons q0 qrest =>
        exfalso
        obtain ⟨hq0ne, hq0lt⟩ := hgood q0 (List.mem_cons_self _ _)
        rw [List.flatten_nil, List.append_nil, List.map_cons, List.flatten_cons,
          encodeFrame] at heq
        by_cases hn : s.n = 0
        · rw [owed_zero s hn] at heq
          have hl := congrArg List.length heq
          simp [List.length_append, le32enc_length] at hl
          have h4 := hz hn
          have hq0pos : 0 < q0.length := List.length_pos.mpr hq0ne
          omega
        · rw [owed_pos s hn] at heq
          have heq2 : le32enc s.n ++ s.data
              = le32enc q0.length ++ (q0 ++ (qrest.map encodeFrame).flatten) := by
            simpa [List.append_assoc] using heq
          obtain ⟨hpre, hdat⟩ := List.append_inj heq2
            (by rw [le32enc_length, le32enc_length])
          have hnq0 : s.n = q0.length := by
            have h := congrArg le32dec hpre
            rwa [le32_round _ hn32, le32_round _ hq0lt] at h
          have hlt := hp hn
          have hl := congrArg List.length hdat
          simp [List.length_append] at hl
          omega
    subst hqs
    simp [runH]
  | cons c cs ih =>
    intro s qs hWF hgood heq
    obtain ⟨out, qs', t, hrec, hq, hgood', hWF', heq'⟩ :=
      onRecvH_spec s qs c cs.flatten hWF hgood
        (by simpa [List.append_assoc] using heq)
    rw [List.map_cons, runH, hrec]
    simp [ih t qs' hWF' hgood' heq', hq]

/-- The polling loop stops at the first tick where the condition holds,
provided that tick is within the timeout. -/
theorem waitGo_finds (cond : Nat → Bool) (T : Nat) :
    ∀ (r k j : Nat), k ≤ j → j ≤ T → j - k < r →
      (∀ i, k ≤ i → i < j → cond i = false) → cond j = true →
      waitGo cond T r k = j := by
  intro r
  induction r with
  | zero => intro k j h1 h2 h3; omega
  | succ r ih =>
    intro k j h1 h2 h3 hfalse htrue
    rw [waitGo]
    by_cases hkj : k = j
    · subst hkj
      rw [if_pos htrue]
    · have hklt : k < j := lt_of_le_of_ne h1 hkj
      have hcf : cond k = false := hfalse k le_rfl hklt
      rw [if_neg (by simp [hcf]), if_neg (by omega)]
      exact ih (k + 1) j hklt h2 (by omega)
        (fun i hi1 hi2 => hfalse i (by omega) hi2) htrue

/-- A well-formed blocked state satisfies the inner `while` condition: the
loop goes back to `recv`. -/
theorem stateWF_needsRecv (s : RState) (hWF : stateWF s) : needsRecv s := by
  obtain ⟨_, _, hp⟩ := hWF
  by_cases hn : s.n = 0
  · exact Or.inr (Or.inl hn)
  · exact Or.inr (Or.inr (hp hn))

/-- An empty read (`recv` returning zero bytes, a graceful peer close) makes
no progress: `data += ''` changes nothing, no prefix parse fires, nothing is
delivered, and the loop re-enters `recv` in the very same state. -/
theorem onRecvH_empty (hf : List Nat → Bool) (s : RState) (hWF : stateWF s) :
    onRecvH hf s [] = ([], DrainStop.more s) := by
  have h0 := hWF.2.1
  unfold onRecvH
  rw [tryParse_eq]
  have ht : tryParseP ⟨s.data ++ [], s.n⟩ = s := by
    rw [tryParseP, if_neg]
    · simp
    · rintro ⟨h1, h2⟩
      rw [List.append_nil] at h2
      exact absurd h2 (not_le.mpr (h0 h1))
  rw [ht]
  unfold drainH
  show drainGo hf (Nat.succ s.data.length) s = ([], DrainStop.more s)
  rw [drainGo, if_pos (stateWF_needsRecv s hWF)]

/-- Any number of empty reads leaves the loop still waiting in `recv`, with
nothing delivered: on a graceful end-of-stream the receive loop never
terminates. -/
theorem runH_empty_reads (hf : List Nat → Bool) (s : RState) (hWF : stateWF s) :
    ∀ k, runH hf s (List.replicate k (RecvEvent.chunk []))
      = ([], Outcome.blocked) := by
  intro k
  induction k with
  | zero => rfl
  | succ m ih =>
    rw [List.replicate_succ, runH, onRecvH_empty hf s hWF]
    simp [ih]

/-- Unfolding equation for one pass of the accept loop. -/
theorem serveLoop_cons (st : ServerState) (ev : AcceptEvent) (rest : List AcceptEvent) :
    serveLoop st (ev :: rest) =
      if st.shutdownEvent ∨ getattrSock st = none then (server_shutdown st, .cleanExit)
      else
        match ev with
        | .shutdownReq => serveLoop (server_shutdown st) rest
        | .acceptError => (server_shutdown st, .errorExit)
        | .conn ok =>
          if ok then serveLoop { st with spawned := st.spawned + 1 } rest
          else serveLoop { st with handlerFailures := st.handlerFailures + 1 } rest := by
  rfl

end Lemmas

section Claims

/-- C1 (corrected). The claim as stated admits zero-length payloads, but the
receive loop conflates a parsed zero prefix with "no prefix pending": the
frame `00 00 00 00` followed by the frame for `[65]` yields no handler
invocation at all (the loop is still waiting in `recv`), so the delivered
sequence is not the original payload sequence. -/
theorem C1_counterexample :
    ((([] : List Nat) :: [[65]]).map encodeFrame).flatten = [0, 0, 0, 0, 1, 0, 0, 0, 65] ∧
    runH noFail ⟨[], 0⟩ [RecvEvent.chunk [0, 0, 0, 0, 1, 0, 0, 0, 65]]
      = ([], Outcome.blocked) ∧
    (runH noFail ⟨[], 0⟩ [RecvEvent.chunk [0, 0, 0, 0, 1, 0, 0, 0, 65]]).1
      ≠ [[], [65]] := by
  refine ⟨by decide, by decide, by decide⟩

/-- C1 (amended): for every finite sequence of NON-EMPTY payloads (each of
length below `2^31 - 1`) encoded back-to-back, and every partition of the
resulting byte string into non-empty chunks, feeding the chunks one at a
time to the receive loop delivers exactly the original payload sequence,
byte-identical and in order, wherever the chunk boundaries fall. -/
theorem C1_chunk_boundary_independence (ps cs : List (List Nat))
    (hps : ∀ p ∈ ps, 1 ≤ p.length ∧ p.length < 2 ^ 31 - 1)
    (_hcs : ∀ c ∈ cs, c ≠ [])
    (hbytes : cs.flatten = (ps.map encodeFrame).flatten) :
    runH noFail ⟨[], 0⟩ (cs.map RecvEvent.chunk) = (ps, Outcome.blocked) := by
  apply runH_spec cs ⟨[], 0⟩ ps
  · exact ⟨by norm_num, fun _ => by norm_num, fun h => absurd rfl h⟩
  · intro q hq
    obtain ⟨h1, h2⟩ := hps q hq
    norm_num at h2
    exact ⟨fun h => by simp [h] at h1, by omega⟩
  · simpa [owed] using hbytes

/-- Witness for C1: payloads `[1]` and `[2, 3]`, delivered one byte per
chunk. -/
theorem C1_witness :
    (∀ p ∈ ([[1], [2, 3]] : List (List Nat)), 1 ≤ p.length ∧ p.length < 2 ^ 31 - 1) ∧
    (∀ c ∈ ([[1], [0], [0], [0], [1], [2], [0], [0], [0], [2], [3]] : List (List Nat)),
      c ≠ []) ∧
    ([[1], [0], [0], [0], [1], [2], [0], [0], [0], [2], [3]] : List (List Nat)).flatten
      = (([[1], [2, 3]] : List (List Nat)).map encodeFrame).flatten ∧
    runH noFail ⟨[], 0⟩
        (([[1], [0], [0], [0], [1], [2], [0], [0], [0], [2], [3]] :
          List (List Nat)).map RecvEvent.chunk)
      = ([[1], [2, 3]], Outcome.blocked) :=
  ⟨by decide, by decide, by decide,
    C1_chunk_boundary_independence [[1], [2, 3]]
      [[1], [0], [0], [0], [1], [2], [0], [0], [0], [2], [3]]
      (by decide) (by decide) (by decide)⟩

/-- C2 (corrected). For the zero-length payload the claim fails: feeding the
frame `00 00 00 00` produces no handler invocation (the loop keeps waiting
in `recv`), not exactly one. -/
theorem C2_counterexample :
    encodeFrame ([] : List Nat) = [0, 0, 0, 0] ∧
    runH noFail ⟨[], 0⟩ [RecvEvent.chunk (encodeFrame ([] : List Nat))]
      = ([], Outcome.blocked) ∧
    (runH noFail ⟨[], 0⟩ [RecvEvent.chunk (encodeFrame ([] : List Nat))]).1.length
      ≠ 1 := by
  refine ⟨by decide, by decide, by decide⟩

/-- C2 (amended): for every payload `p` with `1 ≤ len(p) < 2^31 - 1`, feeding
the encoding of `p` (4-byte little-endian length prefix followed by `p`) to
the receive loop causes exactly one handler invocation, whose argument is
byte-identical to `p`. -/
theorem C2_roundtrip_nonempty (p : List Nat)
    (h1 : 1 ≤ p.length) (h2 : p.length < 2 ^ 31 - 1) :
    runH noFail ⟨[], 0⟩ [RecvEvent.chunk (encodeFrame p)] = ([p], Outcome.blocked) := by
  have h := runH_spec [encodeFrame p] ⟨[], 0⟩ [p]
    ⟨by norm_num, fun _ => by norm_num, fun hx => absurd rfl hx⟩
    (by intro q hq
        simp at hq
        subst hq
        norm_num at h2
        exact ⟨fun hx => by simp [hx] at h1, by omega⟩)
    (by simp [owed])
  simpa using h

/-- Witness for C2: the one-byte payload `[65]`. -/
theorem C2_witness :
    1 ≤ ([65] : List Nat).length ∧ ([65] : List Nat).length < 2 ^ 31 - 1 ∧
    runH noFail ⟨[], 0⟩ [RecvEvent.chunk (encodeFrame [65])]
      = ([[65]], Outcome.blocked) :=
  ⟨by decide, by decide, C2_roundtrip_nonempty [65] (by decide) (by decide)⟩

/-- C3 (code bug). The spec requires the decoded prefix to be validated to
lie in `[0, 2^31 - 1)` with a `ProtocolError` otherwise, but the code's
only check is `assert number_of_bytes >= 0` on an unsigned decode: the
prefix `ff ff ff ff` decodes to `4294967295 ≥ 2^31 - 1` and is accepted as
the pending payload length with no error — the loop then simply keeps
waiting for that many bytes. -/
theorem C3_oversize_prefix_accepted :
    unpack_u32 [255, 255, 255, 255] = 4294967295 ∧
    2 ^ 31 - 1 ≤ 4294967295 ∧
    onRecvH noFail ⟨[], 0⟩ [255, 255, 255, 255]
      = ([], DrainStop.more ⟨[], 4294967295⟩) ∧
    runH noFail ⟨[], 0⟩ [RecvEvent.chunk [255, 255, 255, 255]]
      = ([], Outcome.blocked) := by
  refine ⟨by decide, by norm_num, by decide, by decide⟩

/-- C4 (corrected). A graceful peer close is signaled by `recv` returning an
empty byte string, and the code never checks for an empty read: after 100
consecutive empty reads from the initial state the loop has delivered
nothing and is still re-entering `recv` (outcome `blocked`, not a
termination), and the worker has not run its `finally` close — the receive
loop does not terminate on end-of-stream, refuting the claim. -/
theorem C4_counterexample :
    runH noFail ⟨[], 0⟩ (List.replicate 100 (RecvEvent.chunk []))
      = ([], Outcome.blocked) ∧
    (runWorker noFail ⟨[], 0⟩ (List.replicate 100 (RecvEvent.chunk []))
      false).closeCalls = 0 := by
  refine ⟨by decide, by decide⟩

/-- C4 (amended): whenever `recv` raises (transport error, or the socket
closed or reset under the call), in any parser state and after any sequence
of chunks, the receive loop returns: it ends the delivered sequence
silently, with outcome `disconnected` — not a protocol error, and not an
infinite loop.  When the read source instead signals end-of-stream by
`recv` returning zero bytes (graceful peer close), the loop never
terminates: an empty read returns it to `recv` in the very same state, so
any number of them leaves it blocked with nothing delivered. -/
theorem C4_error_terminates_eof_spins :
    (∀ (s : RState) (cs : List (List Nat)) (rest : List RecvEvent),
      runH noFail s (cs.map RecvEvent.chunk ++ RecvEvent.error :: rest)
        = ((runH noFail s (cs.map RecvEvent.chunk)).1, Outcome.disconnected)) ∧
    (∀ s : RState, stateWF s →
      onRecvH noFail s [] = ([], DrainStop.more s) ∧
      ∀ k, runH noFail s (List.replicate k (RecvEvent.chunk []))
        = ([], Outcome.blocked)) := by
  constructor
  · intro s cs rest
    induction cs generalizing s with
    | nil => simp [runH]
    | cons c cs ih =>
      obtain ⟨ms, t, hrec⟩ := onRecvH_noFail_more s c
      rw [List.map_cons, List.cons_append, runH, hrec]
      conv_rhs => rw [runH, hrec]
      simp [ih t]
  · intro s hWF
    exact ⟨onRecvH_empty noFail s hWF, runH_empty_reads noFail s hWF⟩

/-- Witness for C4: the initial state is well-formed; one and five empty
reads leave it blocked; and a frame followed by a `recv` exception delivers
the frame and ends with `disconnected`. -/
theorem C4_witness :
    stateWF ⟨[], 0⟩ ∧
    onRecvH noFail ⟨[], 0⟩ [] = ([], DrainStop.more ⟨[], 0⟩) ∧
    runH noFail ⟨[], 0⟩ (List.replicate 5 (RecvEvent.chunk []))
      = ([], Outcome.blocked) ∧
    runH noFail ⟨[], 0⟩
        (([[1, 0, 0, 0, 65]] : List (List Nat)).map RecvEvent.chunk
          ++ RecvEvent.error :: [])
      = ([[65]], Outcome.disconnected) := by
  have hWF : stateWF (⟨[], 0⟩ : RState) :=
    ⟨by norm_num, fun _ => by norm_num, fun h => absurd rfl h⟩
  refine ⟨hWF, (C4_error_terminates_eof_spins.2 ⟨[], 0⟩ hWF).1,
    (C4_error_terminates_eof_spins.2 ⟨[], 0⟩ hWF).2 5, ?_⟩
  rw [C4_error_terminates_eof_spins.1 ⟨[], 0⟩ [[1, 0, 0, 0, 65]] []]
  decide

/-- C5 (confirmed, for the statable part): on every termination of the
receive loop — disconnect, protocol error, or a handler exception — the
`finally` block runs exactly one `close` on the connection socket and the
worker exits; `close` attempts on an already-closed socket are swallowed
(`finallyClose` never raises and leaves the socket closed). -/
theorem C5_close_on_termination (hf : List Nat → Bool) (s : RState)
    (evs : List RecvEvent) (h : (runH hf s evs).2 ≠ Outcome.blocked) :
    (runWorker hf s evs false).closed = true ∧
    (runWorker hf s evs false).closeCalls = 1 ∧
    ∀ b, finallyClose b = true := by
  refine ⟨?_, ?_, fun b => by cases b <;> rfl⟩ <;>
    simp [runWorker, if_neg h, finallyClose, sockClose]

/-- Witness for C5: a run terminated by a transport error. -/
theorem C5_witness :
    (runH noFail ⟨[], 0⟩ [RecvEvent.error]).2 ≠ Outcome.blocked ∧
    (runWorker noFail ⟨[], 0⟩ [RecvEvent.error] false).closed = true ∧
    (runWorker noFail ⟨[], 0⟩ [RecvEvent.error] false).closeCalls = 1 ∧
    finallyClose true = true ∧ finallyClose false = true :=
  ⟨by decide,
    (C5_close_on_termination noFail ⟨[], 0⟩ [RecvEvent.error] (by decide)).1,
    (C5_close_on_termination noFail ⟨[], 0⟩ [RecvEvent.error] (by decide)).2.1,
    (C5_close_on_termination noFail ⟨[], 0⟩ [RecvEvent.error] (by decide)).2.2 true,
    (C5_close_on_termination noFail ⟨[], 0⟩ [RecvEvent.error] (by decide)).2.2 false⟩

/-- C6 (confirmed): `pack_obj` fails exactly when the serialized message
length is at or above `2^31 - 1` bytes (`MAX_INT32`), producing no frame
bytes; otherwise it returns exactly the 4-byte little-endian length prefix
followed by the message bytes. -/
theorem C6_pack_obj_bound (msg : List Nat) :
    MAX_INT32 = 2 ^ 31 - 1 ∧
    (msg.length < 2 ^ 31 - 1 →
      pack_obj msg = Except.ok (le32enc msg.length ++ msg)) ∧
    (2 ^ 31 - 1 ≤ msg.length → ∃ e, pack_obj msg = Except.error e) := by
  have hpow : (2 : Nat) ^ 31 - 1 = 2147483647 := by norm_num
  refine ⟨by rw [hpow]; rfl, ?_, ?_⟩
  · intro h
    rw [hpow] at h
    unfold pack_obj MAX_INT32
    rw [if_pos h]
  · intro h
    rw [hpow] at h
    exact ⟨_, by unfold pack_obj MAX_INT32; rw [if_neg (by omega)]⟩

/-- Witness for C6: a one-byte message is framed; a message of exactly
`2^31 - 1` bytes is refused. -/
theorem C6_witness :
    ([65] : List Nat).length < 2 ^ 31 - 1 ∧
    pack_obj [65] = Except.ok (le32enc ([65] : List Nat).length ++ [65]) ∧
    2 ^ 31 - 1 ≤ (List.replicate (2 ^ 31 - 1) (0 : Nat)).length ∧
    (∃ e, pack_obj (List.replicate (2 ^ 31 - 1) (0 : Nat)) = Except.error e) :=
  ⟨by decide, (C6_pack_obj_bound [65]).2.1 (by decide),
    by rw [List.length_replicate],
    (C6_pack_obj_bound _).2.2 (by rw [List.length_replicate])⟩

/-- C7 (confirmed): `Server.shutdown` clears the listening-socket handle (so
`is_alive` is `False` and the accept-loop guard fails), and a second
`shutdown` is a no-op — the state, including the close-call count, is
unchanged, and no error is raised (the close is inside `try/except`). -/
theorem C7_shutdown_idempotent (st : ServerState) :
    getattrSock (server_shutdown st) = none ∧
    is_alive (server_shutdown st) = false ∧
    server_shutdown (server_shutdown st) = server_shutdown st ∧
    acceptLoopGuard (server_shutdown st) = false := by
  obtain ⟨b, a, e, cc, sp, hfl⟩ := st
  cases a <;> cases b <;>
    simp [server_shutdown, getattrSock, is_alive, acceptLoopGuard]

/-- C8 (corrected). Handler construction/start failures are indeed contained,
but "only explicit shutdown stops the accept loop" is false: an exception
from `select`/`accept` itself (outside the inner `try/except`) escapes the
loop, so a later perfectly good connection is never accepted even though
`shutdown` was never requested. -/
theorem C8_counterexample :
    AcceptEvent.shutdownReq ∉ [AcceptEvent.acceptError, AcceptEvent.conn true] ∧
    serveLoop ⟨some false, SockAttr.bound 5000, false, 0, 0, 0⟩
        [AcceptEvent.acceptError, AcceptEvent.conn true]
      = (⟨some false, SockAttr.noneV, true, 1, 0, 0⟩, ServeOutcome.errorExit) ∧
    (serveLoop ⟨some false, SockAttr.bound 5000, false, 0, 0, 0⟩
        [AcceptEvent.acceptError, AcceptEvent.conn true]).1.spawned = 0 := by
  refine ⟨by decide, by decide, by decide⟩

/-- C8 (amended): for every accepted connection, if constructing or starting
its handler raises, the failure is contained and the accept loop continues
and can accept further connections; the loop is stopped by explicit
shutdown or by an exception from `select`/`accept` itself (only the latter
two stop it). -/
theorem C8_handler_failure_contained (st : ServerState) (evs : List AcceptEvent)
    (hev : st.shutdownEvent = false) (hsock : getattrSock st ≠ none)
    (hae : AcceptEvent.acceptError ∉ evs) (hsr : AcceptEvent.shutdownReq ∉ evs) :
    ∃ st', serveLoop st evs = (st', ServeOutcome.running) ∧
      st'.spawned = st.spawned + evs.count (AcceptEvent.conn true) ∧
      getattrSock st' = getattrSock st ∧ st'.shutdownEvent = false ∧
      st'.handlerFailures = st.handlerFailures + evs.count (AcceptEvent.conn false) := by
  induction evs generalizing st with
  | nil => exact ⟨st, rfl, by simp, rfl, hev, by simp⟩
  | cons ev rest ih =>
    simp only [List.mem_cons, not_or] at hae hsr
    rw [serveLoop_cons, if_neg (by simp [hev, hsock])]
    match ev, hae, hsr with
    | .acceptError, hae, _ => exact absurd rfl hae.1
    | .shutdownReq, _, hsr => exact absurd rfl hsr.1
    | .conn true, hae, hsr =>
      obtain ⟨st', hrun, hsp, hso, hse, hhf⟩ :=
        ih { st with spawned := st.spawned + 1 } hev hsock hae.2 hsr.2
      refine ⟨st', hrun, ?_, hso, hse, ?_⟩
      · rw [hsp]
        simp [List.count_cons]
        omega
      · rw [hhf]
        simp [List.count_cons]
    | .conn false, hae, hsr =>
      obtain ⟨st', hrun, hsp, hso, hse, hhf⟩ :=
        ih { st with handlerFailures := st.handlerFailures + 1 } hev hsock hae.2 hsr.2
      refine ⟨st', hrun, ?_, hso, hse, ?_⟩
      · rw [hsp]
        simp [List.count_cons]
      · rw [hhf]
        simp [List.count_cons]
        omega

/-- Witness for C8: one handler failure followed by one good connection,
starting from a live listener. -/
theorem C8_witness :
    (⟨some false, SockAttr.bound 5000, false, 0, 0, 0⟩ : ServerState).shutdownEvent
        = false ∧
    getattrSock ⟨some false, SockAttr.bound 5000, false, 0, 0, 0⟩ ≠ none ∧
    AcceptEvent.acceptError ∉ [AcceptEvent.conn false, AcceptEvent.conn true] ∧
    AcceptEvent.shutdownReq ∉ [AcceptEvent.conn false, AcceptEvent.conn true] ∧
    ∃ st', serveLoop ⟨some false, SockAttr.bound 5000, false, 0, 0, 0⟩
          [AcceptEvent.conn false, AcceptEvent.conn true] = (st', ServeOutcome.running) ∧
      st'.spawned = (⟨some false, SockAttr.bound 5000, false, 0, 0, 0⟩ :
          ServerState).spawned
        + [AcceptEvent.conn false, AcceptEvent.conn true].count (AcceptEvent.conn true) ∧
      getattrSock st' = getattrSock ⟨some false, SockAttr.bound 5000, false, 0, 0, 0⟩ ∧
      st'.shutdownEvent = false ∧
      st'.handlerFailures = (⟨some false, SockAttr.bound 5000, false, 0, 0, 0⟩ :
          ServerState).handlerFailures
        + [AcceptEvent.conn false, AcceptEvent.conn true].count (AcceptEvent.conn false) :=
  ⟨rfl, by decide, by decide, by decide,
    C8_handler_failure_contained ⟨some false, SockAttr.bound 5000, false, 0, 0, 0⟩
      [AcceptEvent.conn false, AcceptEvent.conn true] rfl (by decide) (by decide)
      (by decide)⟩

/-- C9 (confirmed): `get_port` fails (with the `AttributeError` the spec
calls `NotReadyError`) when the listening socket never becomes bound; and
when the socket becomes bound at some tick within the polling timeout,
`get_port` blocks until then and returns the actual bound port. -/
theorem C9_get_port (sockAt : Nat → SockAttr) :
    ((∀ k, sockAt k = SockAttr.absent) →
      get_port sockAt = Except.error "AttributeError: _sock") ∧
    (∀ p b, b ≤ 500 →
      (∀ k, k < b → sockAt k = SockAttr.absent) →
      (∀ k, b ≤ k → sockAt k = SockAttr.bound p) →
      get_port sockAt = Except.ok p) := by
  constructor
  · intro h
    simp only [get_port]
    rw [h]
  · intro p b hb hbefore hafter
    have hw : wait_loop (fun k => hasattrSock (sockAt k)) 500 = b := by
      unfold wait_loop
      exact waitGo_finds _ 500 502 0 b (Nat.zero_le _) hb (by omega)
        (fun i _ hi => by rw [hbefore i hi]; rfl)
        (by rw [hafter b le_rfl]; rfl)
    simp only [get_port]
    rw [hw, hafter b le_rfl]

/-- Witness for C9: a socket that never binds yields the error; a socket
bound at tick 3 to port 7070 yields `ok 7070`. -/
theorem C9_witness :
    get_port (fun _ => SockAttr.absent) = Except.error "AttributeError: _sock" ∧
    get_port (fun k => if k < 3 then SockAttr.absent else SockAttr.bound 7070)
      = Except.ok 7070 :=
  ⟨(C9_get_port _).1 (fun _ => rfl),
    (C9_get_port _).2 7070 3 (by omega)
      (fun k hk => by simp [hk])
      (fun k hk => by simp [Nat.not_lt.mpr hk])⟩

/-- C10 (confirmed): the length prefix is decoded as a 32-bit unsigned value,
so it is nonnegative for every possible input, the
`assert number_of_bytes >= 0` always holds (its error branch is
unreachable), and no run of the receive loop ever ends in a protocol
error — no 4-byte prefix value is rejected by the reader. -/
theorem C10_assert_unreachable :
    (∀ bs : List Nat, 0 ≤ unpack_u32 bs) ∧
    (∀ u : RState, tryParse u = Except.ok (tryParseP u)) ∧
    (∀ (hf : List Nat → Bool) (s : RState) (evs : List RecvEvent),
      (runH hf s evs).2 ≠ Outcome.protocolError) :=
  ⟨fun _ => Int.ofNat_nonneg _, tryParse_eq,
    fun hf s evs => runH_no_proto hf evs s⟩

end Claims

end UmsgpackConn
